import Mathlib

/-! Shallow embedding of the TikZ editor core (the TikZEditor component):
the parser `parseTikZCode`, the drag updater `handleNodeDrag`, the rewriter
`updateCodeFromNodes`, and the state-synchronization step `dragStep` that
models the component's event handling.  Strings are `List Char`; JS numbers
are exact rationals (every numeric computation reached by the claims is
exact in binary floating point as well); JS `NaN` propagation is modelled
by `Option ℚ` with `none` standing for `NaN`.  The two fixed regular
expressions of the source are hand-compiled to deterministic scanners:
in both patterns every greedy character class is followed by a literal
character outside the class, so the JS engine's match at a given start
position is deterministic, and `RegExp.exec` with the `g` flag visits
candidate start positions left to right, resuming after each match —
exactly the fueled scanners below. -/

namespace TikZ

/-- Source-text strings, as lists of characters. -/
abbrev Str := List Char

/-- Build a `Str` from a Lean string literal. -/
def strOf (s : String) : Str := s.toList

/-- The character set of the ECMAScript `\s` class (also used by
`String.prototype.trim` and by `parseFloat`'s leading-whitespace skip). -/
def jsWs (c : Char) : Bool :=
  let n := c.toNat
  n = 9 || n = 10 || n = 11 || n = 12 || n = 13 || n = 32 || n = 160 ||
  n = 5760 || (8192 ≤ n && n ≤ 8202) || n = 8232 || n = 8233 || n = 8239 ||
  n = 8287 || n = 12288 || n = 65279

/-- Match a literal character sequence, returning the rest of the input. -/
def dropLit : Str → Str → Option Str
  | [], s => some s
  | _ :: _, [] => none
  | c :: cs, d :: ds => if c = d then dropLit cs ds else none

/-- JS `String.prototype.trim`. -/
def trimStr (s : Str) : Str :=
  ((s.dropWhile jsWs).reverse.dropWhile jsWs).reverse

/-- JS `String.prototype.split(',')`: split at every comma, keeping empty
pieces (`"".split(',')` is `[""]`). -/
def splitComma : Str → List Str
  | [] => [[]]
  | ',' :: rest => [] :: splitComma rest
  | c :: rest =>
    match splitComma rest with
    | [] => [[c]]
    | h :: t => (c :: h) :: t

/-- Test whether `pat` occurs at the start of `s`. -/
def startsWithStr : Str → Str → Bool
  | [], _ => true
  | _ :: _, [] => false
  | p :: ps, c :: cs => p = c && startsWithStr ps cs

/-- JS `String.prototype.includes`: substring containment. -/
def containsSub (pat : Str) : Str → Bool
  | [] => startsWithStr pat []
  | c :: rest => startsWithStr pat (c :: rest) || containsSub pat rest

/-- The source's `replace(/cm/g, '')`: remove every (non-overlapping,
left-to-right) occurrence of the two characters `cm`. -/
def stripCm : Str → Str
  | 'c' :: 'm' :: rest => stripCm rest
  | c :: rest => c :: stripCm rest
  | [] => []

/-- Digits of the leading decimal-digit run, with the rest of the input. -/
def digitSpan (s : Str) : Str × Str :=
  (s.takeWhile (fun c => c.isDigit), s.dropWhile (fun c => c.isDigit))

/-- Numeric value of a digit string. -/
def digitsToNat (ds : Str) : ℕ :=
  ds.foldl (fun a c => a * 10 + (c.toNat - 48)) 0

/-- JS `parseFloat`, on the finite fragment: skip leading whitespace, an
optional sign, decimal digits with an optional fraction and an optional
exponent, ignoring any trailing characters; `none` models `NaN` (no
digits at all).  The special literal `Infinity` and exponent overflow to
an infinity are not modelled — no claim reaches them, and the source's
coordinate strings are plain decimals. -/
def parseFloat (s : Str) : Option ℚ :=
  let s0 := s.dropWhile jsWs
  let sg : ℚ × Str :=
    match s0 with
    | '-' :: r => (-1, r)
    | '+' :: r => (1, r)
    | r => (1, r)
  let ip := digitSpan sg.2
  let fp : Str × Str :=
    match ip.2 with
    | '.' :: r => digitSpan r
    | _ => ([], ip.2)
  if ip.1.isEmpty && fp.1.isEmpty then none
  else
    let mant : ℚ := (digitsToNat ip.1 : ℚ) + (digitsToNat fp.1 : ℚ) / (10 : ℚ) ^ fp.1.length
    let ex : ℤ × Str :=
      match fp.2 with
      | 'e' :: '-' :: r => (-1, (digitSpan r).1)
      | 'e' :: '+' :: r => (1, (digitSpan r).1)
      | 'e' :: r => (1, (digitSpan r).1)
      | 'E' :: '-' :: r => (-1, (digitSpan r).1)
      | 'E' :: '+' :: r => (1, (digitSpan r).1)
      | 'E' :: r => (1, (digitSpan r).1)
      | _ => (1, [])
    let q := if ex.2.isEmpty then mant
             else mant * (10 : ℚ) ^ (ex.1 * (digitsToNat ex.2 : ℤ))
    some (sg.1 * q)

/-- Literal `\node[` opening a node declaration. -/
def nodeLit : Str := strOf "\\node["

/-- Literal `\draw[` opening a connection declaration. -/
def drawLit : Str := strOf "\\draw["

/-- Literal `at` between the name and the coordinates. -/
def atLit : Str := strOf "at"

/-- Literal `--` between the two endpoints of a connection. -/
def dashLit : Str := strOf "--"

/-- Literal `\textbf` followed by an opening brace, for the label cleanup. -/
def textbfLit : Str := strOf "\\textbf\x7b"

/-- The four capture groups of one node-declaration match. -/
structure NodeMatch where
  style : Str
  name : Str
  coords : Str
  label : Str
deriving DecidableEq

/-- The three capture groups of one connection-declaration match. -/
structure DrawMatch where
  style : Str
  fromName : Str
  toName : Str
deriving DecidableEq

/-- Attempt of the node regex
`\\node\[([^\]]*)\]\s*\(([^)]+)\)\s*at\s*\(([^)]+)\)\s*\{([^}]*)\}`
anchored at the start of `s`; on success, the captures and the input past
the match. -/
def matchNodeAt (s : Str) : Option (NodeMatch × Str) :=
  (dropLit nodeLit s).bind fun s1 =>
  let style := s1.takeWhile (fun c => c != ']')
  match s1.dropWhile (fun c => c != ']') with
  | ']' :: s2 =>
    match s2.dropWhile jsWs with
    | '(' :: s3 =>
      let name := s3.takeWhile (fun c => c != ')')
      if name.isEmpty then none else
      match s3.dropWhile (fun c => c != ')') with
      | ')' :: s4 =>
        (dropLit atLit (s4.dropWhile jsWs)).bind fun s5 =>
        match s5.dropWhile jsWs with
        | '(' :: s6 =>
          let coords := s6.takeWhile (fun c => c != ')')
          if coords.isEmpty then none else
          match s6.dropWhile (fun c => c != ')') with
          | ')' :: s7 =>
            match s7.dropWhile jsWs with
            | '\x7b' :: s8 =>
              let label := s8.takeWhile (fun c => c != '\x7d')
              match s8.dropWhile (fun c => c != '\x7d') with
              | '\x7d' :: s9 => some (⟨style, name, coords, label⟩, s9)
              | _ => none
            | _ => none
          | _ => none
        | _ => none
      | _ => none
    | _ => none
  | _ => none

/-- Attempt of the connection regex
`\\draw\[([^\]]*)\]\s*\(([^)]+)\)\s*--\s*\(([^)]+)\)` anchored at the
start of `s`. -/
def matchDrawAt (s : Str) : Option (DrawMatch × Str) :=
  (dropLit drawLit s).bind fun s1 =>
  let style := s1.takeWhile (fun c => c != ']')
  match s1.dropWhile (fun c => c != ']') with
  | ']' :: s2 =>
    match s2.dropWhile jsWs with
    | '(' :: s3 =>
      let fromName := s3.takeWhile (fun c => c != ')')
      if fromName.isEmpty then none else
      match s3.dropWhile (fun c => c != ')') with
      | ')' :: s4 =>
        (dropLit dashLit (s4.dropWhile jsWs)).bind fun s5 =>
        match s5.dropWhile jsWs with
        | '(' :: s6 =>
          let toName := s6.takeWhile (fun c => c != ')')
          if toName.isEmpty then none else
          match s6.dropWhile (fun c => c != ')') with
          | ')' :: s7 => some (⟨style, fromName, toName⟩, s7)
          | _ => none
        | _ => none
      | _ => none
    | _ => none
  | _ => none

/-- The `while ((match = nodeRegex.exec(code)) !== null)` loop: visit the
candidate start positions left to right, resuming after the end of each
match.  The fuel bounds the number of loop steps; every step consumes at
least one character, so `code.length` steps suffice. -/
def scanNodesAux : ℕ → Str → List NodeMatch
  | _, [] => []
  | 0, _ => []
  | fuel + 1, c :: cs =>
    match matchNodeAt (c :: cs) with
    | some (m, rest) => m :: scanNodesAux fuel rest
    | none => scanNodesAux fuel cs

/-- All node-declaration matches of `code`, in order of appearance. -/
def scanNodes (code : Str) : List NodeMatch := scanNodesAux code.length code

/-- The `arrowRegex.exec` loop, exactly like `scanNodesAux`. -/
def scanDrawsAux : ℕ → Str → List DrawMatch
  | _, [] => []
  | 0, _ => []
  | fuel + 1, c :: cs =>
    match matchDrawAt (c :: cs) with
    | some (m, rest) => m :: scanDrawsAux fuel rest
    | none => scanDrawsAux fuel cs

/-- All connection-declaration matches of `code`, in order of appearance. -/
def scanDraws (code : Str) : List DrawMatch := scanDrawsAux code.length code

/-- The `replace(/\\textbf\{([^}]+)\}/g, '$1')` match at the start of
`s`: literal `\textbf` and brace, a nonempty brace-free run, the closing
brace; returns the capture and the input past the match. -/
def matchTextbfAt (s : Str) : Option (Str × Str) :=
  (dropLit textbfLit s).bind fun s1 =>
  let cap := s1.takeWhile (fun c => c != '\x7d')
  if cap.isEmpty then none else
  match s1.dropWhile (fun c => c != '\x7d') with
  | '\x7d' :: s2 => some (cap, s2)
  | _ => none

/-- The full `replace(/\\textbf\{([^}]+)\}/g, '$1')`, fueled like the
scanners. -/
def replTextbfAux : ℕ → Str → Str
  | _, [] => []
  | 0, s => s
  | fuel + 1, c :: cs =>
    match matchTextbfAt (c :: cs) with
    | some (cap, rest) => cap ++ replTextbfAux fuel rest
    | none => c :: replTextbfAux fuel cs

/-- Strip the recognized bold markup from a label body. -/
def replTextbf (s : Str) : Str := replTextbfAux s.length s

/-- The `replace(/\\\\/g, '\n')`: each two-backslash sequence becomes a
newline. -/
def replDblBack : Str → Str
  | '\\' :: '\\' :: rest => '\n' :: replDblBack rest
  | c :: rest => c :: replDblBack rest
  | [] => []

/-- The closed set of rendering classes, named as in the source's
`styleType` strings. -/
inductive StyleType where
  | ellipse
  | cylinder
  | dashedRect
  | yellowRect
  | rectangle
deriving DecidableEq

/-- The first-match style classification from the parser's `if`/`else if`
chain over `style.includes(...)`. -/
def styleTypeOf (style : Str) : StyleType :=
  if containsSub (strOf "cloud") style || containsSub (strOf "ellipse") style then .ellipse
  else if containsSub (strOf "db") style || containsSub (strOf "cylinder") style then .cylinder
  else if containsSub (strOf "k8s") style then .dashedRect
  else if containsSub (strOf "api") style then .yellowRect
  else .rectangle

/-- A parsed node.  `x`/`y` are canvas-pixel coordinates as in the
source (`x = unit.x * 50 + 400`, `y = -unit.y * 50 + 300`); `none`
models the `NaN` that `parseFloat` produces on a non-numeric coordinate
component. -/
structure Node where
  name : Str
  x : Option ℚ
  y : Option ℚ
  text : Str
  styleType : StyleType
deriving DecidableEq

/-- A parsed connection. -/
structure Conn where
  fromName : Str
  toName : Str
  dashed : Bool
deriving DecidableEq

/-- The body of the parser's node loop for one match: strip `cm`, trim,
split at commas; only a two-component coordinate list yields a node. -/
def nodeOfMatch (m : NodeMatch) : Option Node :=
  let parts := splitComma (trimStr (stripCm m.coords))
  let text := replDblBack (replTextbf m.label)
  match parts with
  | [c0, c1] =>
    some { name := m.name
           x := (parseFloat (trimStr c0)).map fun q => q * 50 + 400
           y := (parseFloat (trimStr c1)).map fun q => -q * 50 + 300
           text := text
           styleType := styleTypeOf m.style }
  | _ => none

/-- The body of the parser's connection loop for one match: both endpoint
names must be found (by `Array.find`, i.e. first occurrence) in the
already-complete node list, else the match is dropped. -/
def resolveDraw (nodes : List Node) (d : DrawMatch) : Option Conn :=
  match nodes.find? (fun n => n.name == d.fromName),
        nodes.find? (fun n => n.name == d.toName) with
  | some _, some _ =>
    some { fromName := d.fromName, toName := d.toName
           dashed := containsSub (strOf "dashed") d.style }
  | _, _ => none

/-- `parseTikZCode`: nodes first (every match in order, no
duplicate-name filtering — the source pushes each match onto the array),
then connections resolved against the complete node list. -/
def parseTikZCode (code : Str) : List Node × List Conn :=
  let nodes := (scanNodes code).filterMap nodeOfMatch
  (nodes, (scanDraws code).filterMap (resolveDraw nodes))

/-- The functional `setNodes` update of `handleNodeDrag`: the dragged
node's pixel position becomes `(data.x + 400, data.y + 300)`. -/
def handleNodeDrag (nodes : List Node) (nodeName : Str) (dx dy : ℚ) : List Node :=
  nodes.map fun n =>
    if n.name == nodeName then { n with x := some (dx + 400), y := some (dy + 300) } else n

/-- Decimal digits of a natural number, most significant first. -/
def natDigits (n : ℕ) : Str := Nat.toDigits 10 n

/-- Two-digit zero-padded rendering of a remainder below 100. -/
def twoDigits (n : ℕ) : Str :=
  if n < 10 then '0' :: natDigits n else natDigits n

/-- Fixed-point rendering of a nonnegative scaled value: `n` is the value
times 100, already rounded. -/
def natFixed2 (n : ℕ) : Str := natDigits (n / 100) ++ '.' :: twoDigits (n % 100)

/-- JS `Number.prototype.toFixed(2)` on a finite value: extract the sign,
then round the magnitude to the nearest hundredth, ties away from zero
(ECMA-262 picks the larger candidate numerator). -/
def toFixed2 (q : ℚ) : Str :=
  if q < 0 then '-' :: natFixed2 (⌊-q * 100 + 1 / 2⌋).toNat
  else natFixed2 (⌊q * 100 + 1 / 2⌋).toNat

/-- `toFixed(2)` lifted over `NaN`: JS renders `NaN.toFixed(2)` as the
string `NaN`. -/
def fmtFixed2 : Option ℚ → Str
  | none => strOf "NaN"
  | some q => toFixed2 q

/-- The unit-space x-coordinate written back by the rewriter:
`(node.x - 400) / 50`. -/
def unitX (n : Node) : Option ℚ := n.x.map fun v => (v - 400) / 50

/-- The unit-space y-coordinate written back by the rewriter:
`-(node.y - 300) / 50`. -/
def unitY (n : Node) : Option ℚ := n.y.map fun v => -(v - 300) / 50

/-- The replacement string of the rewriter for one node:
`(name) at (Xcm,Ycm)` with the 2-decimal coordinates. -/
def replFor (n : Node) : Str :=
  '(' :: n.name ++ strOf ") at (" ++ fmtFixed2 (unitX n) ++ strOf "cm," ++
    fmtFixed2 (unitY n) ++ strOf "cm)"

/-- ECMAScript regex pattern metacharacters.  The rewriter splices the
raw node name into `new RegExp` between escaped parentheses; a name made
only of non-metacharacters leaves the pattern's meaning exactly the
literal clause search modelled by `matchClauseAt` below. -/
def regexMeta (c : Char) : Bool :=
  c = '\\' || c = '^' || c = '$' || c = '.' || c = '|' || c = '?' || c = '*' ||
  c = '+' || c = '(' || c = ')' || c = '[' || c = ']' || c = '\x7b' || c = '\x7d'

/-- A node name the rewriter's interpolated pattern treats literally. -/
def nameLiteral (s : Str) : Bool := s.all fun c => !regexMeta c

/-- Require one literal character at the head of the input. -/
def reqChar (c : Char) : Str → Option Str
  | d :: r => if d = c then some r else none
  | [] => none

/-- Attempt of the rewriter's pattern `\(NAME\)\s*at\s*\([^)]+\)` at the
start of `s`, for a literally-interpreted `NAME`; on success the matched
substring and the input past the match. -/
def matchClauseAt (name : Str) (s : Str) : Option (Str × Str) :=
  (reqChar '(' s).bind fun s1 =>
  (dropLit name s1).bind fun s2 =>
  (reqChar ')' s2).bind fun s3 =>
  (dropLit atLit (s3.dropWhile jsWs)).bind fun s4 =>
  (reqChar '(' (s4.dropWhile jsWs)).bind fun s5 =>
  let coords := s5.takeWhile (fun c => c != ')')
  if coords.isEmpty then none else
  (reqChar ')' (s5.dropWhile (fun c => c != ')'))).bind fun s6 =>
  some ('(' :: name ++ ')' :: (s3.takeWhile jsWs) ++ atLit ++ (s4.takeWhile jsWs) ++
          '(' :: coords ++ [')'], s6)

/-- One global `replace` pass: visit candidate start positions left to
right, emit the replacement at each match and resume past it, fueled
like the scanners. -/
def rewriteAux (name repl : Str) : ℕ → Str → Str
  | _, [] => []
  | 0, s => s
  | fuel + 1, c :: cs =>
    match matchClauseAt name (c :: cs) with
    | some (_, rest) => repl ++ rewriteAux name repl fuel rest
    | none => c :: rewriteAux name repl fuel cs

/-- `updatedCode.replace(regex, repl)` for one node's clause pattern. -/
def rewriteOne (name repl s : Str) : Str := rewriteAux name repl s.length s

/-- A segment of the rewriter's scan: an untouched character or one
matched clause substring. -/
inductive Seg where
  | lit : Char → Seg
  | hit : Str → Seg
deriving DecidableEq

/-- The source text of a segment. -/
def segStr : Seg → Str
  | .lit c => [c]
  | .hit m => m

/-- The output text of a segment under replacement `repl`. -/
def segOut (repl : Str) : Seg → Str
  | .lit c => [c]
  | .hit _ => repl

/-- Whether a segment is an untouched character. -/
def segIsLit : Seg → Bool
  | .lit _ => true
  | .hit _ => false

/-- The segmentation of `s` induced by the scan of `rewriteOne name`:
the same recursion, recording matched clauses and untouched characters. -/
def clauseSegsAux (name : Str) : ℕ → Str → List Seg
  | _, [] => []
  | 0, _ => []
  | fuel + 1, c :: cs =>
    match matchClauseAt name (c :: cs) with
    | some (m, rest) => .hit m :: clauseSegsAux name fuel rest
    | none => .lit c :: clauseSegsAux name fuel cs

/-- The clause segmentation of a whole text. -/
def clauseSegs (name s : Str) : List Seg := clauseSegsAux name s.length s

/-- Every clause match of `name` in `s` is already the string `repl`. -/
def allClausesEq (name repl s : Str) : Bool :=
  (clauseSegs name s).all fun g =>
    match g with
    | .hit m => decide (m = repl)
    | .lit _ => true

/-- `updateCodeFromNodes`: fold the per-node `replace` over the node
list.  The source builds each node's regex by splicing the raw name into
`new RegExp`; for a name containing a regex metacharacter the pattern
either fails to compile — e.g. the parseable name `(` yields a pattern
with an unterminated group, so `new RegExp` throws a `SyntaxError` and
no string is returned — or denotes a different search than the literal
one; both lie outside the literal-name domain and are modelled as
`none`. -/
def updateCodeFromNodes (nodes : List Node) (code : Str) : Option Str :=
  nodes.foldlM
    (fun acc n =>
      if nameLiteral n.name then some (rewriteOne n.name (replFor n) acc) else none)
    code

/-- The component state the drag transition touches. -/
structure EditorState where
  tikzCode : Str
  nodes : List Node
  conns : List Conn
deriving DecidableEq

/-- One `onDrag` event as the component processes it: `handleNodeDrag`
schedules the functional `setNodes` update and then calls
`updateCodeFromNodes`, whose closure still reads the render-scope
`nodes` — the pre-drag list.  React applies both updates; if the
rewritten string equals the current `tikzCode` the state is unchanged
and the `[tikzCode]` effect does not re-fire, otherwise that effect
re-runs `parseTikZCode` on the rewritten text and its `setNodes` /
`setConnections` replace the dragged graph.  `none` models the
`SyntaxError` crash for a non-literal node name. -/
def dragStep (st : EditorState) (nodeName : Str) (dx dy : ℚ) : Option EditorState :=
  let nodes1 := handleNodeDrag st.nodes nodeName dx dy
  (updateCodeFromNodes st.nodes st.tikzCode).map fun code1 =>
    if code1 = st.tikzCode then
      { st with nodes := nodes1 }
    else
      let p := parseTikZCode code1
      { tikzCode := code1, nodes := p.1, conns := p.2 }

/-- A one-node source whose coordinate clause is not in the rewriter's
output format. -/
def ex1 : Str := strOf "\\node[cloud] (a) at (-6,3) \x7bAWS\x7d"

/-- `ex1` as the rewriter reformats it. -/
def ex1norm : Str := strOf "\\node[cloud] (a) at (-6.00cm,3.00cm) \x7bAWS\x7d"

/-- The concrete scenario source: node `a` at unit `(-6,3)`, node `b` at
unit `(-1.3,3)`, a connection from `a` to `b`; the coordinate clauses are
written in the rewriter's normalized form. -/
def ex3 : Str := strOf "\\node[cloud] (a) at (-6.00cm,3.00cm) \x7bAWS\x7d\n\\node[cloud] (b) at (-1.30cm,3.00cm) \x7bGCP\x7d\n\\draw[arrow] (a) -- (b)"

/-- `ex3` after node `a` moves to unit `(-5,3)`. -/
def ex3drag : Str := strOf "\\node[cloud] (a) at (-5.00cm,3.00cm) \x7bAWS\x7d\n\\node[cloud] (b) at (-1.30cm,3.00cm) \x7bGCP\x7d\n\\draw[arrow] (a) -- (b)"

/-- The parsed node `a` of `ex3`: unit `(-6,3)` is pixel `(100,150)`. -/
def nodeA : Node := ⟨strOf "a", some 100, some 150, strOf "AWS", .ellipse⟩

/-- The parsed node `b` of `ex3`: unit `(-1.3,3)` is pixel `(335,150)`. -/
def nodeB : Node := ⟨strOf "b", some 335, some 150, strOf "GCP", .ellipse⟩

/-- Node `a` after the drag to pixel `(150,150)`. -/
def nodeA150 : Node := ⟨strOf "a", some 150, some 150, strOf "AWS", .ellipse⟩

/-- Node `a` after a drag to pixel `(170,150)`. -/
def nodeA170 : Node := ⟨strOf "a", some 170, some 150, strOf "AWS", .ellipse⟩

/-- The component state holding `ex3` and its parse. -/
def st3 : EditorState := ⟨ex3, (parseTikZCode ex3).1, (parseTikZCode ex3).2⟩

/-- A source declaring node `n` twice: at unit `(0,0)` and at `(5,5)`. -/
def exDup : Str := strOf "\\node[s] (n) at (0,0) \x7bA\x7d\n\\node[s] (n) at (5,5) \x7bB\x7d"

/-- A source whose only connection references the undeclared name `y`. -/
def exDangling : Str := strOf "\\node[s] (x) at (0,0) \x7bX\x7d\n\\draw[arrow] (x) -- (y)"

/-- A source whose first node declaration has a three-component
coordinate list, followed by a well-formed declaration. -/
def exBad : Str := strOf "\\node[s] (a) at (1,2,3) \x7bA\x7d\n\\node[s] (b) at (4,5) \x7bB\x7d"

/-- A node declaration with relative placement only — no `at` clause. -/
def exNoAt : Str := strOf "\\node[cloud, above=of gcp] (openai) \x7bX\x7d"

/-- A source that parses to a node literally named `(`. -/
def exParen : Str := strOf "\\node[s] (() at (1,2) \x7bT\x7d"

/-- A node whose style tags contain both a cloud and an api marker. -/
def exCloudApi : Str := strOf "\\node[cloud, api] (c) at (0,0) \x7bL\x7d"

/-- A declaration with extra spacing between the name and `at`. -/
def exSpaced : Str := strOf "\\node[s] (a)   at (1,2) \x7bT\x7d"

/-- `exSpaced` as the rewrite actually returns it: the whole clause,
spacing included, is replaced. -/
def exSpacedOut : Str := strOf "\\node[s] (a) at (1.00cm,2.00cm) \x7bT\x7d"

/-- What `exSpaced` would become were only the coordinate-pair substring
replaced, the spacing kept. -/
def exSpacedCoordsOnly : Str := strOf "\\node[s] (a)   at (1.00cm,2.00cm) \x7bT\x7d"


theorem dropLit_append {l s r : Str} (h : dropLit l s = some r) : s = l ++ r := by
  induction l generalizing s with
  | nil => simpa [dropLit] using h
  | cons c cs ih =>
    match s with
    | [] => simp [dropLit] at h
    | d :: ds =>
      simp only [dropLit] at h
      split at h
      · next heq => simp [heq, ih h]
      · exact absurd h (by simp)

theorem reqChar_append {c : Char} {s r : Str} (h : reqChar c s = some r) : s = c :: r := by
  match s with
  | [] => simp [reqChar] at h
  | d :: ds =>
    simp only [reqChar] at h
    split at h
    · next heq => simp only [Option.some.injEq] at h; simp [heq, h]
    · exact absurd h (by simp)

theorem matchClauseAt_append {name s m rest : Str}
    (h : matchClauseAt name s = some (m, rest)) : s = m ++ rest ∧ m ≠ [] := by
  simp only [matchClauseAt, Option.bind_eq_some] at h
  obtain ⟨s1, hs1, s2, hs2, s3, hs3, s4, hs4, s5, hs5, h⟩ := h
  split at h
  · exact absurd h (by simp)
  · rw [Option.bind_eq_some] at h
    obtain ⟨s6, hs6, h⟩ := h
    simp only [Option.some.injEq, Prod.mk.injEq] at h
    obtain ⟨hm, hr⟩ := h
    have e1 := reqChar_append hs1
    have e2 := dropLit_append hs2
    have e3 := reqChar_append hs3
    have e4 := dropLit_append hs4
    have e5 := reqChar_append hs5
    have e6 := reqChar_append hs6
    subst e1 e2 e3 hm hr
    refine ⟨?_, by simp⟩
    conv_lhs => rw [← List.takeWhile_append_dropWhile jsWs s3, e4,
      ← List.takeWhile_append_dropWhile jsWs s4, e5,
      ← List.takeWhile_append_dropWhile (fun c => c != ')') s5, e6]
    simp [List.append_assoc]

theorem matchClauseAt_length {name s m rest : Str}
    (h : matchClauseAt name s = some (m, rest)) : rest.length < s.length := by
  obtain ⟨he, hm⟩ := matchClauseAt_append h
  subst he
  cases m with
  | nil => exact absurd rfl hm
  | cons a l => simp [List.length_append]; omega

theorem clauseSegsAux_spec (name repl : Str) :
    ∀ fuel s, s.length ≤ fuel →
      ((clauseSegsAux name fuel s).map segStr).flatten = s ∧
      rewriteAux name repl fuel s = ((clauseSegsAux name fuel s).map (segOut repl)).flatten := by
  intro fuel
  induction fuel with
  | zero =>
    intro s hs
    have : s = [] := List.length_eq_zero.mp (Nat.le_zero.mp hs)
    subst this
    simp [clauseSegsAux, rewriteAux]
  | succ fuel ih =>
    intro s hs
    match s with
    | [] => simp [clauseSegsAux, rewriteAux]
    | c :: cs =>
      simp only [clauseSegsAux, rewriteAux]
      cases hm : matchClauseAt name (c :: cs) with
      | none =>
        simp only [hm]
        have hlen : cs.length ≤ fuel := by
          simp only [List.length_cons] at hs; omega
        obtain ⟨ih1, ih2⟩ := ih cs hlen
        simp [segStr, segOut, ih1, ih2]
      | some pr =>
        obtain ⟨m, rest⟩ := pr
        simp only [hm]
        have hlen : rest.length ≤ fuel := by
          have := matchClauseAt_length hm
          simp only [List.length_cons] at this hs; omega
        obtain ⟨ih1, ih2⟩ := ih rest hlen
        obtain ⟨he, -⟩ := matchClauseAt_append hm
        simp only [List.map_cons, List.flatten_cons, segStr, segOut, ih1, ih2]
        exact ⟨he.symm, trivial⟩

theorem segs_flatten (name s : Str) : ((clauseSegs name s).map segStr).flatten = s :=
  (clauseSegsAux_spec name [] s.length s (Nat.le_refl _)).1

theorem rewriteOne_segs (name repl s : Str) :
    rewriteOne name repl s = ((clauseSegs name s).map (segOut repl)).flatten :=
  (clauseSegsAux_spec name repl s.length s (Nat.le_refl _)).2

theorem rewriteOne_id {name repl s : Str} (h : allClausesEq name repl s = true) :
    rewriteOne name repl s = s := by
  rw [rewriteOne_segs]
  have : (clauseSegs name s).map (segOut repl) = (clauseSegs name s).map segStr := by
    apply List.map_congr_left
    intro g hg
    have := (List.all_eq_true.mp h) g hg
    cases g with
    | lit c => rfl
    | hit m =>
      simp only [decide_eq_true_eq] at this
      simp [segOut, segStr, this]
  rw [this, segs_flatten]



theorem updateCode_id : ∀ (ns : List Node) (t : Str),
    (∀ n ∈ ns, nameLiteral n.name = true ∧ allClausesEq n.name (replFor n) t = true) →
    updateCodeFromNodes ns t = some t := by
  intro ns
  induction ns with
  | nil => intro t _; rfl
  | cons hd tl ih =>
    intro t h
    obtain ⟨h1, h2⟩ := h hd (List.mem_cons_self hd tl)
    have step : updateCodeFromNodes (hd :: tl) t = updateCodeFromNodes tl t := by
      simp only [updateCodeFromNodes, List.foldlM_cons, h1, if_true, rewriteOne_id h2]
      rfl
    rw [step]
    exact ih t fun n hn => h n (List.mem_cons_of_mem hd hn)

theorem updateCode_total : ∀ (ns : List Node) (t : Str),
    (∀ n ∈ ns, nameLiteral n.name = true) →
    (updateCodeFromNodes ns t).isSome = true := by
  intro ns
  induction ns with
  | nil => intro t _; rfl
  | cons hd tl ih =>
    intro t h
    have h1 := h hd (List.mem_cons_self hd tl)
    have step : updateCodeFromNodes (hd :: tl) t =
        updateCodeFromNodes tl (rewriteOne hd.name (replFor hd) t) := by
      simp only [updateCodeFromNodes, List.foldlM_cons, h1, if_true]
      rfl
    rw [step]
    exact ih _ fun n hn => h n (List.mem_cons_of_mem hd hn)

theorem conn_endpoints : ∀ (code : Str) (c : Conn), c ∈ (parseTikZCode code).2 →
    (∃ n ∈ (parseTikZCode code).1, n.name = c.fromName) ∧
    (∃ n ∈ (parseTikZCode code).1, n.name = c.toName) := by
  intro code c hc
  simp only [parseTikZCode, List.mem_filterMap] at hc
  simp only [parseTikZCode]
  obtain ⟨d, hd, hres⟩ := hc
  simp only [resolveDraw] at hres
  split at hres
  · next n1 n2 heq1 heq2 =>
    simp only [Option.some.injEq] at hres
    subst hres
    constructor
    · refine ⟨n1, List.mem_of_find?_eq_some heq1, ?_⟩
      have := List.find?_some heq1
      simpa [beq_iff_eq] using this
    · refine ⟨n2, List.mem_of_find?_eq_some heq2, ?_⟩
      have := List.find?_some heq2
      simpa [beq_iff_eq] using this
  · exact absurd hres (by simp)

theorem badCoords_none : ∀ m : NodeMatch,
    (splitComma (trimStr (stripCm m.coords))).length ≠ 2 → nodeOfMatch m = none := by
  intro m h
  simp only [nodeOfMatch]
  split
  · next c0 c1 heq => exact absurd (by rw [heq]; rfl) h
  · rfl

theorem style_first : ∀ s : Str,
    (containsSub (strOf "cloud") s || containsSub (strOf "ellipse") s) = true →
    styleTypeOf s = .ellipse := by
  intro s h
  simp [styleTypeOf, h]

theorem style_second : ∀ s : Str,
    (containsSub (strOf "cloud") s || containsSub (strOf "ellipse") s) = false →
    (containsSub (strOf "db") s || containsSub (strOf "cylinder") s) = true →
    styleTypeOf s = .cylinder := by
  intro s h1 h2
  simp [styleTypeOf, h1, h2]



unseal Rat.add Rat.mul Rat.inv Rat.sub in
/-- C1, counterexample: `ex1` parses completely (its one node declaration
is matched), yet rewriting the freshly parsed graph back into `ex1`
returns `ex1norm`, which rewrites the coordinate clause to
`(a) at (-6.00cm,3.00cm)` — not byte-for-byte the original
`(a) at (-6,3)`. -/
theorem c1_counterexample :
    updateCodeFromNodes (parseTikZCode ex1).1 ex1 = some ex1norm ∧ ex1norm ≠ ex1 := by
  decide

unseal Rat.add Rat.mul Rat.inv Rat.sub in
/-- C1, amended: `rewrite(text, parse(text)) = text` byte-for-byte for
every text whose parsed node names are free of regex metacharacters and
in which every occurrence of a parsed node's clause pattern
`(name) at (coords)` is already written exactly in the rewriter's output
format for that node's position; in general the rewrite normalizes each
matched clause instead of returning the text unchanged. -/
theorem c1_roundtrip (t : Str)
    (h : ∀ n ∈ (parseTikZCode t).1,
      nameLiteral n.name = true ∧ allClausesEq n.name (replFor n) t = true) :
    updateCodeFromNodes (parseTikZCode t).1 t = some t :=
  updateCode_id _ t h

/-- C1, witness: `ex3` is in normalized form, and round-trips exactly. -/
theorem c1_roundtrip_witness :
    updateCodeFromNodes (parseTikZCode ex3).1 ex3 = some ex3 :=
  c1_roundtrip ex3 (of_decide_eq_true (by with_unfolding_all rfl))

unseal Rat.add Rat.mul Rat.inv Rat.sub in
/-- C2, counterexample: the parser pushes every match onto the node
array without any duplicate-name filtering, so `exDup` — node `n` at
`(0,0)` then again at `(5,5)` — parses to two nodes named `n`, not
exactly one. -/
theorem c2_counterexample :
    ((parseTikZCode exDup).1.filter fun n => n.name == strOf "n").length = 2 := by
  decide

unseal Rat.add Rat.mul Rat.inv Rat.sub in
/-- C2, amended: parsing `exDup` yields one node record per declaration,
in declaration order — two records named `n`, the first from the `(0,0)`
declaration (pixel `(400,300)`, unit `(0,0)`), the second from `(5,5)`;
name-based lookup (`Array.find`, used for connection endpoints and
rendering lines) returns the first record, so the first declaration's
position takes precedence for lookups, but the duplicate is kept, not
discarded. -/
theorem c2_first_occurrence :
    (parseTikZCode exDup).1 =
      [⟨strOf "n", some 400, some 300, strOf "A", .rectangle⟩,
       ⟨strOf "n", some 650, some 50, strOf "B", .rectangle⟩] ∧
    (parseTikZCode exDup).1.find? (fun n => n.name == strOf "n") =
      some ⟨strOf "n", some 400, some 300, strOf "A", .rectangle⟩ ∧
    unitX ⟨strOf "n", some 400, some 300, strOf "A", .rectangle⟩ = some 0 ∧
    unitY ⟨strOf "n", some 400, some 300, strOf "A", .rectangle⟩ = some 0 := by
  decide

unseal Rat.add Rat.mul Rat.inv Rat.sub in
/-- C3 (confirmed): parsing `ex3` — node `a` at unit `(-6,3)`, node `b`
at unit `(-1.3,3)`, one connection `a -- b` — yields exactly the two
nodes and the one connection; with `SCALE = 50` and `ORIGIN = (400,300)`
baked into the parse, `a` sits at pixel `(100,150)` and `b` at
`(335,150)`; the drag of `a` to pixel `(150,150)` (drag data
`(-250,-150)`, offset by the origin) updates `a` to unit `(-5,3)`, and
the rewrite of `ex3` against the dragged graph returns `ex3drag`, in
which only `a`'s coordinate substring changed while `b`'s declaration
and the `\draw` line are unchanged character-for-character. -/
theorem c3_concrete_scenario :
    (parseTikZCode ex3).1 = [nodeA, nodeB] ∧
    (parseTikZCode ex3).2 = [⟨strOf "a", strOf "b", false⟩] ∧
    nodeA.x = some 100 ∧ nodeA.y = some 150 ∧
    nodeB.x = some 335 ∧ nodeB.y = some 150 ∧
    handleNodeDrag (parseTikZCode ex3).1 (strOf "a") (-250) (-150) = [nodeA150, nodeB] ∧
    unitX nodeA150 = some (-5) ∧ unitY nodeA150 = some 3 ∧
    updateCodeFromNodes [nodeA150, nodeB] ex3 = some ex3drag := by
  decide

unseal Rat.add Rat.mul Rat.inv Rat.sub in
/-- C4, counterexample: `exParen` parses to a graph whose single node is
literally named `(`; the rewriter splices that name unescaped into
`new RegExp`, producing a pattern with an unterminated group, so the
rewrite throws a `SyntaxError` instead of returning a string — modelled
as `none`. -/
theorem c4_counterexample :
    (parseTikZCode exParen).1 = [⟨strOf "(", some 450, some 200, strOf "T", .rectangle⟩] ∧
    updateCodeFromNodes (parseTikZCode exParen).1 exParen = none := by
  decide

unseal Rat.add Rat.mul Rat.inv Rat.sub in
/-- C4, amended: the parser is a total function (embedded as one), and
the rewrite returns a string for any source text and any graph all of
whose node names are free of regex metacharacters; a name containing a
metacharacter can make the interpolated pattern invalid, in which case
`new RegExp` throws and no string is returned. -/
theorem c4_rewrite_total (nodes : List Node) (code : Str)
    (h : ∀ n ∈ nodes, nameLiteral n.name = true) :
    (updateCodeFromNodes nodes code).isSome = true :=
  updateCode_total nodes code h

/-- C4, witness: rewriting `ex1` against the dragged `ex3` nodes (whose
names `a`, `b` are metacharacter-free) returns a string. -/
theorem c4_rewrite_total_witness :
    (updateCodeFromNodes [nodeA150, nodeB] ex1).isSome = true :=
  c4_rewrite_total [nodeA150, nodeB] ex1 (by decide)

unseal Rat.add Rat.mul Rat.inv Rat.sub in
/-- C5 (confirmed): `exDangling` declares only `x` but draws `x -- y`,
and parses to zero connections with no error; and in general every
connection that survives into a parsed graph has both endpoint names
present among the parsed nodes — the dangling match is dropped at
construction time. -/
theorem c5_dangling_dropped :
    (parseTikZCode exDangling).2 = [] ∧
    ∀ (code : Str) (c : Conn), c ∈ (parseTikZCode code).2 →
      (∃ n ∈ (parseTikZCode code).1, n.name = c.fromName) ∧
      (∃ n ∈ (parseTikZCode code).1, n.name = c.toName) :=
  ⟨by decide, conn_endpoints⟩

unseal Rat.add Rat.mul Rat.inv Rat.sub in
/-- C5, witness: the connection of `ex3` satisfies the endpoint
invariant. -/
theorem c5_dangling_dropped_witness :
    ∃ n ∈ (parseTikZCode ex3).1, n.name = strOf "a" :=
  (c5_dangling_dropped.2 ex3 ⟨strOf "a", strOf "b", false⟩ (by decide)).1

unseal Rat.add Rat.mul Rat.inv Rat.sub in
/-- C6 (confirmed): the shape class follows the parser's first-match
priority — cloud/ellipse markers, then db/cylinder, then k8s
(dashed rectangle), then api (highlight rectangle), else the default
rectangle; in particular a style list carrying both a cloud and an api
marker resolves to `ellipse`, also through a full parse. -/
theorem c6_shape_priority :
    (∀ s : Str, (containsSub (strOf "cloud") s || containsSub (strOf "ellipse") s) = true →
      styleTypeOf s = .ellipse) ∧
    (∀ s : Str, (containsSub (strOf "cloud") s || containsSub (strOf "ellipse") s) = false →
      (containsSub (strOf "db") s || containsSub (strOf "cylinder") s) = true →
      styleTypeOf s = .cylinder) ∧
    (∀ s : Str, (containsSub (strOf "cloud") s || containsSub (strOf "ellipse") s) = false →
      (containsSub (strOf "db") s || containsSub (strOf "cylinder") s) = false →
      containsSub (strOf "k8s") s = true → styleTypeOf s = .dashedRect) ∧
    (∀ s : Str, (containsSub (strOf "cloud") s || containsSub (strOf "ellipse") s) = false →
      (containsSub (strOf "db") s || containsSub (strOf "cylinder") s) = false →
      containsSub (strOf "k8s") s = false →
      containsSub (strOf "api") s = true → styleTypeOf s = .yellowRect) ∧
    (∀ s : Str, (containsSub (strOf "cloud") s || containsSub (strOf "ellipse") s) = false →
      (containsSub (strOf "db") s || containsSub (strOf "cylinder") s) = false →
      containsSub (strOf "k8s") s = false →
      containsSub (strOf "api") s = false → styleTypeOf s = .rectangle) ∧
    styleTypeOf (strOf "cloud, api") = .ellipse ∧
    (parseTikZCode exCloudApi).1 = [⟨strOf "c", some 400, some 300, strOf "L", .ellipse⟩] :=
  ⟨fun s h => by simp [styleTypeOf, h],
   fun s h1 h2 => by simp [styleTypeOf, h1, h2],
   fun s h1 h2 h3 => by simp [styleTypeOf, h1, h2, h3],
   fun s h1 h2 h3 h4 => by simp [styleTypeOf, h1, h2, h3, h4],
   fun s h1 h2 h3 h4 => by simp [styleTypeOf, h1, h2, h3, h4],
   by decide, by decide⟩

unseal Rat.add Rat.mul Rat.inv Rat.sub in
/-- C6, witness: the cylinder branch fires on a bare `db` marker. -/
theorem c6_shape_priority_witness : styleTypeOf (strOf "db") = .cylinder :=
  c6_shape_priority.2.1 (strOf "db") (by decide) (by decide)

/-- C7 (code bug): a drag of `a` on the state holding `ex1` does not
leave the graph produced by `handleNodeDrag`: the rewrite (which reads
the pre-drag nodes) changes `tikzCode`, the `[tikzCode]` effect re-runs
`parseTikZCode` on the rewritten text, and the resulting state carries
the re-parsed graph with `a` back at pixel `(100,150)` — the dragged
position `(150,150)` is discarded. -/
theorem c7_drag_triggers_reparse :
    dragStep ⟨ex1, (parseTikZCode ex1).1, (parseTikZCode ex1).2⟩ (strOf "a") (-250) (-150) =
      some ⟨ex1norm, [nodeA], []⟩ ∧
    handleNodeDrag (parseTikZCode ex1).1 (strOf "a") (-250) (-150) = [nodeA150] ∧
    ([nodeA] : List Node) ≠ [nodeA150] :=
  of_decide_eq_true (by with_unfolding_all rfl)

unseal Rat.add Rat.mul Rat.inv Rat.sub in
/-- C8, counterexample: `exSpaced` writes three spaces between `(a)` and
`at`; the rewrite replaces the whole matched clause, so the spacing —
characters outside the coordinate-pair substring — is normalized to a
single space rather than preserved byte-for-byte. -/
theorem c8_counterexample :
    updateCodeFromNodes (parseTikZCode exSpaced).1 exSpaced = some exSpacedOut ∧
    exSpacedOut ≠ exSpacedCoordsOnly := by
  decide

unseal Rat.add Rat.mul Rat.inv Rat.sub in
/-- C8, amended: the rewrite pass for one name decomposes the text into
untouched characters and matched clause substrings (`segs_flatten`),
rewrites exactly the matched clauses (`rewriteOne_segs`), and leaves the
text unchanged when the name's clause pattern does not occur — so every
character outside the matched clause substrings is preserved
byte-for-byte, but inside a matched clause the spacing is normalized
along with the coordinates, and a clause occurrence anywhere in the text
(a comment included) is rewritten. -/
theorem c8_frame (name repl s : Str) :
    ((clauseSegs name s).map segStr).flatten = s ∧
    rewriteOne name repl s = ((clauseSegs name s).map (segOut repl)).flatten ∧
    ((clauseSegs name s).all segIsLit = true → rewriteOne name repl s = s) :=
  ⟨segs_flatten name s, rewriteOne_segs name repl s, fun h => by
    rw [rewriteOne_segs]
    have he : (clauseSegs name s).map (segOut repl) = (clauseSegs name s).map segStr := by
      apply List.map_congr_left
      intro g hg
      have hl := (List.all_eq_true.mp h) g hg
      cases g with
      | lit c => rfl
      | hit m => simp [segIsLit] at hl
    rw [he, segs_flatten]⟩

/-- C8, witness: a name with no clause occurrence in `ex3` is skipped —
the rewrite returns `ex3` unchanged. -/
theorem c8_frame_witness : rewriteOne (strOf "q") (strOf "R") ex3 = ex3 :=
  (c8_frame (strOf "q") (strOf "R") ex3).2.2 (by decide)

/-- C9 (code bug): on the normalized state `st3`, dragging `a` to pixel
`(150,150)` and then to `(170,150)` ends with the text showing the first
drag's `(-5.00cm,3.00cm)` and the graph re-parsed to pixel `(150,150)`
— the rewrite reads the state before the latest drag, and the resulting
text change re-triggers the parse — whereas a single drag to `(170,150)`
ends at pixel `(170,150)` with the text unchanged; the two final states
differ, so the last drag does not determine the final position or the
final text. -/
theorem c9_last_drag_lost :
    ((dragStep st3 (strOf "a") (-250) (-150)).bind fun s1 =>
        dragStep s1 (strOf "a") (-230) (-150)) =
      some ⟨ex3drag, [nodeA150, nodeB], [⟨strOf "a", strOf "b", false⟩]⟩ ∧
    dragStep st3 (strOf "a") (-230) (-150) =
      some ⟨ex3, [nodeA170, nodeB], [⟨strOf "a", strOf "b", false⟩]⟩ ∧
    ([nodeA150, nodeB] : List Node) ≠ [nodeA170, nodeB] ∧
    ex3drag ≠ ex3 :=
  of_decide_eq_true (by with_unfolding_all rfl)

unseal Rat.add Rat.mul Rat.inv Rat.sub in
/-- C10 (confirmed): a node-declaration match whose coordinate text,
after `cm`-stripping and trimming, does not split at commas into exactly
two components yields no node; concretely, `exBad`'s first declaration
(three components) is silently omitted while the scan continues to the
later good declaration, and `exNoAt`'s relative-placement declaration
(no `at` clause) is never added. -/
theorem c10_malformed_coords :
    (∀ m : NodeMatch,
      (splitComma (trimStr (stripCm m.coords))).length ≠ 2 → nodeOfMatch m = none) ∧
    (parseTikZCode exBad).1 = [⟨strOf "b", some 600, some 50, strOf "B", .rectangle⟩] ∧
    (parseTikZCode exNoAt).1 = [] :=
  ⟨badCoords_none, by decide, by decide⟩

/-- C10, witness: the three-component coordinate match is rejected. -/
theorem c10_malformed_coords_witness :
    nodeOfMatch ⟨strOf "s", strOf "a", strOf "1,2,3", strOf "A"⟩ = none :=
  c10_malformed_coords.1 ⟨strOf "s", strOf "a", strOf "1,2,3", strOf "A"⟩ (by decide)


end TikZ
